import Mathlib

/-!
# Verification of the transcript-retrieval engine

A shallow embedding, in Lean 4, of the retrieval pipeline of this
repository (the two AI-logic modules `lib/ai.ts` and `ai.ts`, plus the
transcript-processing utility).  JavaScript strings are modelled as lists
of characters; JavaScript numbers are modelled as exact rationals,
extended with the special values `Infinity`, `-Infinity` and `NaN`
(type `JsNum`) at the points where the code can divide by zero.
`Math.sqrt` is modelled by `Rat.sqrt`, the exact rational square root:
it agrees with the real square root on every perfect square, and every
property verified here evaluates square roots only on perfect squares.
The embedding and the chat-completion providers are opaque collaborators
in the source; they are modelled as explicit function parameters.
-/

deriving instance DecidableEq for Except

/- The core rational operations are `@[irreducible]` by default, which
blocks kernel evaluation (`decide`) of concrete scores.  Restoring the
default reducibility lets closed pipeline runs evaluate. -/
set_option allowUnsafeReducibility true
attribute [semireducible] Rat.add Rat.mul Rat.div Rat.sub Rat.neg Rat.inv

set_option maxRecDepth 100000

namespace WTF

/-- JavaScript strings are modelled as lists of characters (ASCII-faithful). -/
abbrev Str := List Char

/-- The whitespace class of JavaScript regular expressions, restricted to
ASCII: space, tab, newline, carriage return, vertical tab, form feed. -/
def isWs (c : Char) : Bool :=
  c == ' ' || c == '\t' || c == '\n' || c == '\r' ||
  c == Char.ofNat 11 || c == Char.ofNat 12

/-- `[A-Z]` of a JavaScript regular expression. -/
def isUpperAZ (c : Char) : Bool := 'A' ≤ c && c ≤ 'Z'

/-- `[a-z]` of a JavaScript regular expression. -/
def isLowerAZ (c : Char) : Bool := 'a' ≤ c && c ≤ 'z'

/-- `\d` of a JavaScript regular expression. -/
def isDigit09 (c : Char) : Bool := '0' ≤ c && c ≤ '9'

/-- `String.prototype.toLowerCase` (ASCII range). -/
def toLowerStr (s : Str) : Str := s.map Char.toLower

/-- `String.prototype.trim`: strip the whitespace class from both ends. -/
def trimStr (s : Str) : Str :=
  ((s.dropWhile isWs).reverse.dropWhile isWs).reverse

/-- `slice(-n)`: the last `n` characters (the whole string when shorter). -/
def takeLast (n : Nat) (s : Str) : Str := s.drop (s.length - n)

/-- Whether `pat` occurs as a contiguous substring of `s`
(`String.prototype.includes`).  The empty pattern occurs everywhere. -/
def isSubstr (pat s : Str) : Bool :=
  if pat.isPrefixOf s then true
  else
    match s with
    | [] => pat.isEmpty
    | _ :: t => isSubstr pat t

/-- Character-by-character scan for the non-overlapping, left-to-right
occurrence count below: after a match, `skip` counts the remaining
pattern characters the scan must pass over. -/
def countOccsGo (pat : Str) : Str → Nat → Nat
  | [], _ => 0
  | _ :: t, skip + 1 => countOccsGo pat t skip
  | c :: t, 0 =>
    if pat ≠ [] ∧ pat.isPrefixOf (c :: t) then
      1 + countOccsGo pat t (pat.length - 1)
    else countOccsGo pat t 0

/-- The number of non-overlapping, left-to-right occurrences of a (literal,
non-empty) pattern in a string: the length of `text.match(/pat/g)`.
For the empty pattern the count is 0 (no call site ever passes one:
query words always have length over 2). -/
def countOccs (pat s : Str) : Nat := countOccsGo pat s 0

/-- Prepend a character to the first segment of a split result. -/
def consHeadSeg (c : Char) : List Str → List Str
  | [] => [[c]]
  | seg :: rest => (c :: seg) :: rest

/-- Scanner for `splitRuns`: `inSep` records whether the scan stands
inside a separator run (so further class characters extend the same
separator instead of producing more empty segments). -/
def srGo (p : Char → Bool) (inSep : Bool) : Str → List Str
  | [] => [[]]
  | c :: t =>
    if p c then
      if inSep then srGo p true t else [] :: srGo p true t
    else consHeadSeg c (srGo p false t)

/-- `split` on a character-class regex such as `/\s+/` or `/[.!?]+/`:
maximal runs of class characters separate the segments; runs touching
either end contribute empty segments, exactly as in JavaScript. -/
def splitRuns (p : Char → Bool) (s : Str) : List Str := srGo p false s

/-! ## JavaScript numbers

The scoring code works with IEEE doubles.  All quantities that actually
arise are small exact rationals, so the value space is modelled as `ℚ`
extended with `Infinity`, `-Infinity` and `NaN` — the special values a
division by zero produces (`2/0 = Infinity`, `0/0 = NaN` in JavaScript). -/

inductive JsNum where
  | num (q : ℚ)
  | inf
  | negInf
  | nan
deriving DecidableEq, Repr

namespace JsNum

/-- JavaScript addition (only the cases reachable in this code base matter;
`NaN` is absorbing, `Infinity + -Infinity = NaN`). -/
def add : JsNum → JsNum → JsNum
  | num a, num b => num (a + b)
  | nan, _ => nan
  | _, nan => nan
  | inf, negInf => nan
  | negInf, inf => nan
  | inf, _ => inf
  | _, inf => inf
  | negInf, _ => negInf
  | _, negInf => negInf

/-- JavaScript multiplication (`0 * Infinity = NaN`). -/
def mul : JsNum → JsNum → JsNum
  | num a, num b => num (a * b)
  | nan, _ => nan
  | _, nan => nan
  | inf, num b => if b > 0 then inf else if b < 0 then negInf else nan
  | num a, inf => if a > 0 then inf else if a < 0 then negInf else nan
  | negInf, num b => if b > 0 then negInf else if b < 0 then inf else nan
  | num a, negInf => if a > 0 then negInf else if a < 0 then inf else nan
  | inf, inf => inf
  | inf, negInf => negInf
  | negInf, inf => negInf
  | negInf, negInf => inf

/-- JavaScript division: `x / 0` is `±Infinity` for `x ≠ 0` (rational zero
is `+0`) and `0 / 0` is `NaN`. -/
def div : JsNum → JsNum → JsNum
  | num a, num b =>
    if b ≠ 0 then num (a / b)
    else if a > 0 then inf else if a < 0 then negInf else nan
  | nan, _ => nan
  | _, nan => nan
  | inf, num b => if b ≥ 0 then inf else negInf
  | negInf, num b => if b ≥ 0 then negInf else inf
  | num _, inf => num 0
  | num _, negInf => num 0
  | inf, inf => nan
  | inf, negInf => nan
  | negInf, inf => nan
  | negInf, negInf => nan

/-- JavaScript `<` (false whenever an operand is `NaN`). -/
def ltB : JsNum → JsNum → Bool
  | num a, num b => a < b
  | nan, _ => false
  | _, nan => false
  | inf, _ => false
  | _, inf => true
  | negInf, negInf => false
  | negInf, _ => true
  | _, negInf => false

/-- JavaScript `>` (false whenever an operand is `NaN`). -/
def gtB (a b : JsNum) : Bool := ltB b a

/-- `Math.min` on two arguments: `NaN` if either operand is `NaN`. -/
def min2 (a b : JsNum) : JsNum :=
  if a = nan ∨ b = nan then nan
  else if ltB b a then b else a

end JsNum

/-! ## Vectors and cosine similarity -/

/-- Embedding vectors (`number[]`). -/
abbrev Vec := List ℚ

/-- Dot product of the element-wise pairing, as in the `for` loop. -/
def dotProd (a b : Vec) : ℚ := (List.zipWith (· * ·) a b).sum

/-- The sum of squares accumulated by the same loop. -/
def magSq (a : Vec) : ℚ := (a.map (fun x => x * x)).sum

/-- `cosineSimilarity` from `lib/ai.ts`: 0 when either vector is missing,
when the dimensions differ, or when the length is zero; otherwise
`dot / Math.sqrt(magA * magB)`, with the zero-magnitude case mapped to 0.
`Math.sqrt` is modelled by `Rat.sqrt` (exact on perfect squares; every
verified property evaluates it only on perfect squares). -/
def cosineSimilarity (a? b? : Option Vec) : ℚ :=
  match a?, b? with
  | some a, some b =>
    if a.length ≠ b.length ∨ a.length = 0 then 0
    else
      let magnitude := Rat.sqrt (magSq a * magSq b)
      if magnitude > 0 then dotProd a b / magnitude else 0
  | _, _ => 0

/-- `similarity` from `ai.ts`: identical except that it lacks the explicit
zero-length test (the zero-magnitude guard already yields 0 there). -/
def similarity (a? b? : Option Vec) : ℚ :=
  match a?, b? with
  | some a, some b =>
    if a.length ≠ b.length then 0
    else
      let magnitude := Rat.sqrt (magSq a * magSq b)
      if magnitude > 0 then dotProd a b / magnitude else 0
  | _, _ => 0

/-! ## Topic tagging -/

/-- The fixed topic rule table of `extractTopics` (`lib/ai.ts`).  Each
pattern is an alternation of literal keywords with the `i` flag, so
`pattern.test(text)` holds exactly when some keyword occurs
(case-insensitively) as a substring. -/
def topicPatterns : List (Str × List Str) :=
  [ ("real-estate".toList,
      ["real estate".toList, "property".toList, "housing".toList,
       "construction".toList, "builder".toList, "apartment".toList,
       "rent".toList]),
    ("gaming".toList,
      ["game".toList, "gaming".toList, "esports".toList,
       "mobile gaming".toList, "pc gaming".toList, "console".toList,
       "developer".toList]),
    ("startup".toList,
      ["startup".toList, "entrepreneur".toList, "business".toList,
       "company".toList, "venture".toList, "founder".toList]),
    ("fintech".toList,
      ["fintech".toList, "financial".toList, "banking".toList,
       "payment".toList, "wallet".toList, "upi".toList,
       "digital payment".toList]),
    ("edtech".toList,
      ["education".toList, "learning".toList, "online course".toList,
       "skill".toList, "training".toList, "edtech".toList]),
    ("food".toList,
      ["restaurant".toList, "food".toList, "dining".toList,
       "kitchen".toList, "chef".toList, "delivery".toList,
       "zomato".toList, "swiggy".toList]),
    ("ev".toList,
      ["electric vehicle".toList, "ev".toList, "battery".toList,
       "automotive".toList, "car".toList, "vehicle".toList,
       "charging".toList]),
    ("investment".toList,
      ["investment".toList, "funding".toList, "vc".toList,
       "investor".toList, "capital".toList, "valuation".toList,
       "ipo".toList]),
    ("marketing".toList,
      ["marketing".toList, "brand".toList, "advertising".toList,
       "content".toList, "social media".toList, "influencer".toList]),
    ("healthcare".toList,
      ["healthcare".toList, "medical".toList, "hospital".toList,
       "doctor".toList, "telemedicine".toList, "pharma".toList]) ]

/-- `extractTopics` (`lib/ai.ts`): the topics whose pattern matches the
text, in table order.  Each call re-creates the regex objects, so the
test is stateless. -/
def extractTopics (text : Str) : List Str :=
  let lower := toLowerStr text
  topicPatterns.filterMap fun tp =>
    if tp.2.any (fun k => isSubstr k lower) then some tp.1 else none

/-! ## JavaScript regular-expression compilation

The lexical scorers compile every query token with `new RegExp(word, 'g')`.
`regexOk` models, after ECMA-262 (simplified to the failure modes these
inputs can exhibit), whether that constructor succeeds: a quantifier
(`*`, `+`, `?`) with nothing to repeat, an unbalanced group or class, or
a trailing backslash throws a `SyntaxError`.  Plain alphanumeric words
always compile.  For words that do compile, occurrence counting keeps the
literal-substring interpretation; every verified property evaluates the
count only on metacharacter-free words. -/

/-- Pattern-validity scanner: `depth` counts open groups, `prevAtom` says
whether a quantifier at this point has something to repeat, `inClass`
says whether the scan is inside a `[...]` character class. -/
def regexOkAux (s : Str) (depth : Nat) (prevAtom : Bool) (inClass : Bool) :
    Bool :=
  match s with
  | [] => depth = 0 && !inClass
  | c :: rest =>
    if inClass then
      if c = '\\' then
        match rest with
        | [] => false
        | _ :: r2 => regexOkAux r2 depth prevAtom true
      else if c = ']' then regexOkAux rest depth true false
      else regexOkAux rest depth prevAtom true
    else if c = '\\' then
      match rest with
      | [] => false
      | _ :: r2 => regexOkAux r2 depth true false
    else if c = '(' then regexOkAux rest (depth + 1) false false
    else if c = ')' then
      match depth with
      | 0 => false
      | d + 1 => regexOkAux rest d true false
    else if c = '*' || c = '+' || c = '?' then
      if prevAtom then regexOkAux rest depth false false else false
    else if c = '|' then regexOkAux rest depth false false
    else if c = '[' then regexOkAux rest depth false true
    else regexOkAux rest depth true false

/-- Whether `new RegExp(word, 'g')` succeeds for this pattern. -/
def regexOk (word : Str) : Bool := regexOkAux word 0 false false

/-! ## Lexical scoring -/

/-- `query.toLowerCase().split(/\s+/).filter(word => word.length > 2)` —
the tokenization step shared by every lexical scorer. -/
def queryTokens (query : Str) : List Str :=
  (splitRuns isWs (toLowerStr query)).filter fun w => w.length > 2

/-- Length-weighted term-frequency accumulator of
`calculateKeywordRelevance`: per word, `matches * (word.length / 10)`. -/
def kwTermScore (words : List Str) (textLower : Str) : ℚ :=
  (words.map fun w =>
    (countOccs w textLower : ℚ) * ((w.length : ℚ) / 10)).sum

/-- `calculateKeywordRelevance` (`lib/ai.ts`): term-frequency score with
exact-phrase bonus 2, normalized by `queryWords.length * 2` and capped
at 1.  Compiling a query word with a regex metacharacter throws
(`Except.error`); with zero query words the normalization divides by
zero exactly as the JavaScript does. -/
def calculateKeywordRelevance (query text : Str) : Except Unit JsNum :=
  let queryWords := queryTokens query
  let textLower := toLowerStr text
  if queryWords.all regexOk then
    let score : ℚ := kwTermScore queryWords textLower
    let score : ℚ :=
      if isSubstr (toLowerStr query) textLower then score + 2 else score
    .ok (JsNum.min2
      (JsNum.div (.num score) (.num ((queryWords.length : ℚ) * 2)))
      (.num 1))
  else .error ()

/-- `calculateContentRelevance` (`ai.ts`): same term-frequency core, but
normalized by `text.length / 100` and capped at 1. -/
def calculateContentRelevance (query text : Str) : Except Unit JsNum :=
  let queryWords := queryTokens query
  let textLower := toLowerStr text
  if queryWords.all regexOk then
    let relevanceScore : ℚ := kwTermScore queryWords textLower
    let relevanceScore : ℚ :=
      if isSubstr (toLowerStr query) textLower then relevanceScore + 2
      else relevanceScore
    .ok (JsNum.min2
      (JsNum.div (.num relevanceScore) (.num ((text.length : ℚ) / 100)))
      (.num 1))
  else .error ()

/-- `findKeywordMatches` (`lib/ai.ts`): the query words that occur in the
text (plain `includes`, no regex, so it cannot throw). -/
def findKeywordMatches (query text : Str) : List Str :=
  let textLower := toLowerStr text
  (queryTokens query).filter fun w => isSubstr w textLower

/-! ## The data model -/

/-- `Chunk` of both AI modules: a fixed-width transcript unit. -/
structure Chunk where
  text : Str
  episode : Str
  index : Nat
  embedding : Option Vec := none
deriving DecidableEq, Repr

/-- Speaker attribution of an enhanced chunk. -/
inductive Speaker where
  | host
  | guest
  | unknown
deriving DecidableEq, Repr

/-- `EnhancedChunk` of `lib/ai.ts`. -/
structure EnhancedChunk where
  text : Str
  episode : Str
  episodeTitle : Str
  speaker : Speaker
  guestName : Option Str := none
  timestamp : Option Str := none
  topics : List Str
  index : Nat
  embedding : Option Vec := none
  context : Str
deriving DecidableEq, Repr

/-- The three-tier confidence label. -/
inductive Confidence where
  | high
  | medium
  | low
deriving DecidableEq, Repr

/-- `RetrievalResult` of `lib/ai.ts`. -/
structure RetrievalResult where
  chunk : EnhancedChunk
  relevanceScore : JsNum
  confidenceLevel : Confidence
  matchReason : Str
deriving DecidableEq, Repr

/-! ## Stable sorting

`Array.prototype.sort` is stable (ES2019).  Every comparator in this
code base is `(a, b) => b.key - a.key`, which keeps `a` before `b`
unless `a.key < b.key` strictly (a `NaN` comparator value counts as
`0`, i.e. also keeps the order).  A stable sort with such a comparator
is insertion sort with exactly that "may stay before" test. -/

def insertByB (le : α → α → Bool) (a : α) : List α → List α
  | [] => [a]
  | b :: l => if le a b then a :: b :: l else b :: insertByB le a l

/-- Stable sort: each element is inserted, in input order, before the
first already-placed element it may precede. -/
def sortByB (le : α → α → Bool) : List α → List α
  | [] => []
  | a :: l => insertByB le a (sortByB le l)

/-- The "may stay before" test of the descending comparator
`(a, b) => b.score - a.score` on rational keys. -/
def leQKey (key : α → ℚ) (a b : α) : Bool := !(decide (key a < key b))

/-- The same test for `JsNum` keys (`NaN` differences keep the order). -/
def leJsKey (key : α → JsNum) (a b : α) : Bool := !(JsNum.ltB (key a) (key b))

/-! ## Fusion and deduplication -/

/-- The deduplication key `` `${chunk.episode}-${chunk.index}` `` of the
fusion stage. -/
def chunkKey (c : EnhancedChunk) : Str :=
  c.episode ++ ('-' :: (Nat.repr c.index).toList)

/-- One step of the fusion loop: insert a candidate into the `Map` unless
its key is already present. -/
def insertUnique (acc : List EnhancedChunk) (c : EnhancedChunk) :
    List EnhancedChunk :=
  if acc.any fun d => chunkKey d == chunkKey c then acc else acc ++ [c]

/-- `Array.from(uniqueCandidatesMap.values())`: first occurrence of each
key wins, in input order. -/
def dedupFuse (l : List EnhancedChunk) : List EnhancedChunk :=
  l.foldl insertUnique []

/-! ## The enhanced retrieval pipeline (`lib/ai.ts`) -/

/-- `enhancedKeywordSearch`: keyword-score each chunk on
`chunk.text + ' ' + chunk.context`, keep scores above 0.3, sort
descending, take 8. -/
def enhancedKeywordSearch (query : Str) (chunks : List EnhancedChunk) :
    Except Unit (List EnhancedChunk) := do
  let scored ← chunks.mapM fun chunk => do
    let score ← calculateKeywordRelevance query
      (chunk.text ++ (' ' :: chunk.context))
    pure (chunk, score)
  pure ((sortByB (leJsKey Prod.snd)
    (scored.filter fun p => JsNum.gtB p.2 (.num (3/10)))).take 8
    |>.map Prod.fst)

/-- `calculateEnhancedRelevance`: the weighted composite relevance score,
accumulated exactly as in the source (semantic 0.4 when both embeddings
are present, keyword 0.3, topic 0.2, context 0.1, capped at 1). -/
def calculateEnhancedRelevance (query : Str) (chunk : EnhancedChunk)
    (queryEmbedding : Option Vec) : Except Unit JsNum := do
  let s0 : JsNum := .num 0
  let s1 : JsNum :=
    match queryEmbedding, chunk.embedding with
    | some qe, some ce =>
      JsNum.add s0 (.num (cosineSimilarity (some qe) (some ce) * (4/10)))
    | _, _ => s0
  let keywordScore ← calculateKeywordRelevance query chunk.text
  let s2 := JsNum.add s1 (JsNum.mul keywordScore (.num (3/10)))
  let queryTopics := extractTopics query
  let topicOverlap :=
    (chunk.topics.filter fun t => queryTopics.contains t).length
  let topicScore : ℚ :=
    if queryTopics.length > 0 then (topicOverlap : ℚ) / queryTopics.length
    else 5/10
  let s3 := JsNum.add s2 (.num (topicScore * (2/10)))
  let contextScore ← calculateKeywordRelevance query chunk.context
  let s4 := JsNum.add s3 (JsNum.mul contextScore (.num (1/10)))
  pure (JsNum.min2 s4 (.num 1))

/-- `determineConfidenceLevel`, translated with the source's nesting. -/
def determineConfidenceLevel (score : JsNum) (chunk : EnhancedChunk)
    (query : Str) : Confidence :=
  if JsNum.gtB score (.num (7/10)) ∧ chunk.topics.length > 0 then
    if (extractTopics query).any (fun t => chunk.topics.contains t) then
      .high
    else if JsNum.gtB score (.num (5/10)) then .medium else .low
  else if JsNum.gtB score (.num (5/10)) then .medium else .low

/-- `explainMatch`: the human-readable match reason. -/
def explainMatch (query : Str) (chunk : EnhancedChunk) (score : JsNum) :
    Str :=
  let queryTopics := extractTopics query
  let topicReasons : List Str :=
    if chunk.topics.length > 0 then
      let matchingTopics := chunk.topics.filter fun t => queryTopics.contains t
      if matchingTopics.length > 0 then
        ["Topic match: ".toList ++ List.intercalate ", ".toList matchingTopics]
      else []
    else []
  let keywordMatches := findKeywordMatches query chunk.text
  let kwReasons : List Str :=
    if keywordMatches.length > 0 then
      ["Keywords: ".toList ++
        List.intercalate ", ".toList (keywordMatches.take 3)]
    else []
  let semReasons : List Str :=
    if JsNum.gtB score (.num (7/10)) then ["High semantic similarity".toList]
    else []
  let reasons := topicReasons ++ kwReasons ++ semReasons
  if reasons.length > 0 then List.intercalate "; ".toList reasons
  else "General relevance".toList

/-- `performMultiStageRetrieval`: topic filter, semantic stage, lexical
stage, fusion with first-occurrence dedup, composite re-scoring with the
0.3 floor, stable descending sort, top 5.  The query embedding (an
opaque provider call in the source) is passed in as `queryEmbedding`;
`none` models a failed embedding call. -/
def performMultiStageRetrieval (enhancedChunks : List EnhancedChunk)
    (query : Str) (queryEmbedding : Option Vec) :
    Except Unit (List RetrievalResult) := do
  let queryTopics := extractTopics query
  let topicFilteredChunks :=
    if queryTopics.length > 0 then
      enhancedChunks.filter fun c => c.topics.any fun t => queryTopics.contains t
    else enhancedChunks
  let semanticCandidates : List EnhancedChunk :=
    match queryEmbedding with
    | some qe =>
      ((sortByB (leQKey Prod.snd)
        (((topicFilteredChunks.filter fun c => c.embedding.isSome).map
            fun c => (c, cosineSimilarity (some qe) (some (c.embedding.getD [])))).filter
          fun p => decide ((25/100 : ℚ) < p.2))).take 10).map Prod.fst
    | none => []
  let keywordCandidates ← enhancedKeywordSearch query topicFilteredChunks
  let combinedCandidates := semanticCandidates ++ keywordCandidates
  let allCandidates := dedupFuse combinedCandidates
  let scored ← allCandidates.mapM fun c => do
    let relevanceScore ← calculateEnhancedRelevance query c queryEmbedding
    pure (RetrievalResult.mk c relevanceScore
      (determineConfidenceLevel relevanceScore c query)
      (explainMatch query c relevanceScore))
  let results := scored.filter fun r => JsNum.gtB r.relevanceScore (.num (3/10))
  pure ((sortByB (leJsKey RetrievalResult.relevanceScore) results).take 5)

/-- `searchByKeywordsEnhanced` (`lib/ai.ts`): the keyword fallback of the
original pipeline, over the plain chunk corpus.  All arithmetic here is
finite (the zero-token case returns early), but compiling a query word
can throw. -/
def searchByKeywordsEnhanced (query : Str) (chunks : List Chunk) :
    Except Unit (List Chunk) :=
  let queryWords := queryTokens query
  if queryWords.length = 0 then .ok []
  else do
    let scored ← chunks.mapM fun chunk =>
      if queryWords.all regexOk then
        let text := toLowerStr chunk.text
        let score : ℚ :=
          (queryWords.map fun w => (countOccs w text : ℚ)).sum
        let matchedWords :=
          (queryWords.filter fun w => countOccs w text > 0).length
        let score : ℚ :=
          if isSubstr (toLowerStr query) text then score + 5 else score
        let coverage : ℚ := (matchedWords : ℚ) / queryWords.length
        let score : ℚ := if coverage < 3/10 then score * (5/10) else score
        Except.ok (chunk, score)
      else .error ()
    pure (((sortByB (leQKey Prod.snd)
      (scored.filter fun p => decide ((5/10 : ℚ) < p.2))).take 3).map
      Prod.fst)

/-! ## The smart chunker (`createSmartChunks`, `lib/ai.ts`) -/

/-- Index of the last newline in a string, if any. -/
def lastNewlinePos : Str → Option Nat
  | [] => none
  | c :: t =>
    match lastNewlinePos t with
    | some i => some (i + 1)
    | none => if c = '\n' then some 0 else none

/-- The lookahead `(?=[A-Z][a-z]*:)` of the section-splitting regex. -/
def secLookahead (t : Str) : Bool :=
  match t with
  | u :: r =>
    isUpperAZ u &&
      (match r.dropWhile isLowerAZ with
       | ':' :: _ => true
       | _ => false)
  | [] => false

/-- `content.split(/\n\s*\n|\n(?=[A-Z][a-z]*:)/)`: scan left to right; at a
newline, the first alternative greedily swallows the whitespace run up to
its last contained newline; otherwise a newline directly followed by a
capitalized word and a colon is a one-character separator. -/
def secSplitGo : Nat → Str → Str → List Str
  | 0, _, acc => [acc.reverse]
  | _ + 1, [], acc => [acc.reverse]
  | fuel + 1, c :: t, acc =>
    if c = '\n' then
      let run := t.takeWhile isWs
      match lastNewlinePos run with
      | some i => acc.reverse :: secSplitGo fuel (t.drop (i + 1)) []
      | none =>
        if secLookahead t then acc.reverse :: secSplitGo fuel t []
        else secSplitGo fuel t (c :: acc)
    else secSplitGo fuel t (c :: acc)

/-- The section split, with enough fuel for the whole input (every step of
`secSplitGo` consumes at least one character). -/
def secSplit (content : Str) : List Str :=
  secSplitGo content.length content []

/-- `[.!?]` of the sentence-splitting regex. -/
def isPunct (c : Char) : Bool := c = '.' || c = '!' || c = '?'

/-- The speaker regex `/^([A-Z][a-z\s]+):\s*(.+)/`, group 2 with its
`\s*`-backtracking: try the largest whitespace run after the colon that
still leaves a non-newline character for `(.+)`. -/
def dotPlusSplit (s : Str) : Nat → Option Str
  | 0 =>
    match s with
    | d :: _ => if d ≠ '\n' then some (s.takeWhile fun x => x ≠ '\n') else none
    | [] => none
  | k + 1 =>
    match s.drop (k + 1) with
    | d :: _ =>
      if d ≠ '\n' then some ((s.drop (k + 1)).takeWhile fun x => x ≠ '\n')
      else dotPlusSplit s k
    | [] => dotPlusSplit s k

/-- `text.match(/^([A-Z][a-z\s]+):\s*(.+)/)`: the speaker name (group 1)
and the utterance on the rest of the line (group 2); `[a-z\s]+` is an
unambiguous maximal run because `:` belongs to neither class. -/
def speakerMatch (text : Str) : Option (Str × Str) :=
  match text with
  | c :: t =>
    if isUpperAZ c then
      let nmRest := t.takeWhile fun d => isLowerAZ d || isWs d
      if nmRest.length ≥ 1 then
        match t.drop nmRest.length with
        | ':' :: afterColon =>
          match dotPlusSplit afterColon (afterColon.takeWhile isWs).length with
          | some rest => some (c :: nmRest, rest)
          | none => none
        | _ => none
      else none
    else none
  | [] => none

/-- Continuation of the timestamp regex after the bracket and the hour
digits: `:\d{2}(?::\d{2})?\]`, the optional seconds group tried first. -/
def tsAfterDigits (digits : Str) (r : Str) : Option Str :=
  match r with
  | ':' :: a :: b :: r2 =>
    if isDigit09 a && isDigit09 b then
      match r2 with
      | ':' :: e :: f :: (']' :: _) =>
        if isDigit09 e && isDigit09 f then
          some (digits ++ [':', a, b, ':', e, f])
        else none
      | ']' :: _ => some (digits ++ [':', a, b])
      | _ => none
    else none
  | _ => none

/-- Attempt `/\[(\d{1,2}:\d{2}(?::\d{2})?)\]/` at this position
(`\d{1,2}` greedy: two digits first, then one). -/
def tsAt (s : Str) : Option Str :=
  match s with
  | '[' :: a :: rest =>
    if isDigit09 a then
      match rest with
      | b :: rest2 =>
        if isDigit09 b then
          match tsAfterDigits [a, b] rest2 with
          | some ts => some ts
          | none => tsAfterDigits [a] (b :: rest2)
        else tsAfterDigits [a] (b :: rest2)
      | [] => none
    else none
  | _ => none

/-- First match of the timestamp regex anywhere in the text. -/
def findTimestamp : Str → Option Str
  | [] => none
  | c :: t =>
    match tsAt (c :: t) with
    | some ts => some ts
    | none => findTimestamp t

/-- `\w` of `formatEpisodeTitle`. -/
def isWordCh (c : Char) : Bool :=
  isUpperAZ c || isLowerAZ c || isDigit09 c || c = '_'

/-- `replace(/\b\w/g, l => l.toUpperCase())`: uppercase every word
character not preceded by a word character. -/
def upWordStarts (prevIsWord : Bool) : Str → Str
  | [] => []
  | c :: t =>
    (if isWordCh c && !prevIsWord then c.toUpper else c) ::
      upWordStarts (isWordCh c) t

/-- `formatEpisodeTitle`: dashes and underscores become spaces, then every
word start is capitalized. -/
def formatEpisodeTitle (episodeName : Str) : Str :=
  upWordStarts false
    (episodeName.map fun c => if c = '-' || c = '_' then ' ' else c)

/-- `createChunkWithMetadata`: strip a speaker prefix, classify the
speaker, tag topics over text plus surrounding context, and extract a
timestamp. -/
def createChunkWithMetadata (text episodeName : Str) (index : Nat)
    (prevContext nextContext : Str) : EnhancedChunk :=
  let sm := speakerMatch text
  let cleanText := match sm with | some p => p.2 | none => text
  let speaker : Speaker :=
    match sm with
    | some p =>
      let lower := toLowerStr p.1
      if isSubstr "nikhil".toList lower || isSubstr "host".toList lower then
        .host
      else .guest
    | none => .unknown
  let guestName : Option Str :=
    match sm with
    | some p =>
      let lower := toLowerStr p.1
      if isSubstr "nikhil".toList lower || isSubstr "host".toList lower then
        none
      else some p.1
    | none => none
  { text := cleanText
    episode := episodeName
    episodeTitle := formatEpisodeTitle episodeName
    speaker := speaker
    guestName := guestName
    timestamp := findTimestamp text
    topics := extractTopics
      (cleanText ++ (' ' :: prevContext) ++ (' ' :: nextContext))
    index := index
    embedding := none
    context := prevContext ++ " [...] ".toList ++ nextContext }

/-- The sentence-buffer loop of the over-800-character branch: flush the
buffer (trimmed) whenever appending the next sentence would exceed 600
characters, and flush the remainder at the end. -/
def sentenceBuffers (cur : Str) : List Str → List Str
  | [] => if trimStr cur ≠ [] then [trimStr cur] else []
  | s :: rest =>
    if (cur ++ s).length > 600 then
      if trimStr cur ≠ [] then trimStr cur :: sentenceBuffers s rest
      else sentenceBuffers s rest
    else sentenceBuffers (cur ++ s ++ ". ".toList) rest

/-- Turn the flushed buffer texts of one section into chunks with
consecutive indices. -/
def chunksFromTexts (episodeName prevCtx nextCtx : Str) :
    List Str → Nat → List EnhancedChunk
  | [], _ => []
  | t :: ts, idx =>
    createChunkWithMetadata t episodeName idx prevCtx nextCtx ::
      chunksFromTexts episodeName prevCtx nextCtx ts (idx + 1)

/-- The section loop of `createSmartChunks`: each (filtered) section is
kept whole when at most 800 characters, otherwise split at sentence
boundaries; `prevContext`/`nextContext` are the trailing/leading 100 raw
characters of the neighbouring sections. -/
def smartGo (episodeName : Str) :
    Option Str → List Str → Nat → List EnhancedChunk
  | _, [], _ => []
  | prev?, s :: rest, idx =>
    let sect := trimStr s
    let prevCtx := match prev? with | some p => takeLast 100 p | none => []
    let nextCtx := match rest with | nx :: _ => nx.take 100 | [] => []
    if sect.length > 800 then
      let sentences :=
        (splitRuns isPunct sect).filter fun x => (trimStr x).length > 20
      let texts := sentenceBuffers [] sentences
      chunksFromTexts episodeName prevCtx nextCtx texts idx ++
        smartGo episodeName (some s) rest (idx + texts.length)
    else
      createChunkWithMetadata sect episodeName idx prevCtx nextCtx ::
        smartGo episodeName (some s) rest (idx + 1)

/-- `createSmartChunks`: split into sections, discard sections of trimmed
length at most 50, then run the section loop. -/
def createSmartChunks (content episodeName : Str) : List EnhancedChunk :=
  smartGo episodeName none
    ((secSplit content).filter fun s => (trimStr s).length > 50) 0

/-! ## Fixed-width fallback chunking and initialization -/

/-- The fixed-width chunk loop of `initialize`: slice 500 characters at a
time, trim, keep slices longer than 50 characters, indices counted per
kept chunk. -/
def fixedGo (episode : Str) : Nat → Str → Nat → List Chunk
  | 0, _, _ => []
  | _ + 1, [], _ => []
  | fuel + 1, c :: t, idx =>
    let chunkText := trimStr ((c :: t).take 500)
    let rest := (c :: t).drop 500
    if chunkText.length > 50 then
      { text := chunkText, episode := episode, index := idx } ::
        fixedGo episode fuel rest (idx + 1)
    else fixedGo episode fuel rest idx

/-- `chunk(rawText, sourceId)` in fixed-width fallback mode (fuel covers
the whole input, as every step consumes at least 500 characters). -/
def fixedChunks (content episode : Str) : List Chunk :=
  fixedGo episode content.length content 0

/-- The bulk-embedding loop shared by both `initialize` functions: the
provider is an oracle `f` indexed by call number; a success stores the
vector and resets the consecutive-failure counter, a failure increments
it, and the fifth consecutive failure aborts the loop, leaving the
remaining chunks untouched.  Returns the updated chunks and the next
call index (= total number of provider calls when started at 0). -/
def bulkEmbed (f : Nat → Option Vec) :
    Nat → Nat → List Chunk → List Chunk × Nat
  | i, _, [] => ([], i)
  | i, fails, c :: cs =>
    match f i with
    | some v =>
      let r := bulkEmbed f (i + 1) 0 cs
      ({ c with embedding := some v } :: r.1, r.2)
    | none =>
      if fails + 1 ≥ 5 then (c :: cs, i + 1)
      else
        let r := bulkEmbed f (i + 1) (fails + 1) cs
        (c :: r.1, r.2)

/-- `str.replace(pat, rep)` with a string pattern: first occurrence only. -/
def replaceFirst (pat rep : Str) : Str → Str
  | [] => []
  | c :: t =>
    if pat ≠ [] ∧ pat.isPrefixOf (c :: t) then rep ++ (c :: t).drop pat.length
    else c :: replaceFirst pat rep t

/-- The environment of the system: the transcript directory (`none` when
unreadable), the embedding provider oracle, and the configured keys. -/
structure Env where
  files : Option (List (Str × Str))
  embed : Nat → Option Vec
  hasGroqKey : Bool
  hasOpenAIKey : Bool

/-- The module-level mutable state of `lib/ai.ts`. -/
structure SysState where
  chunks : List Chunk
  enhancedChunks : List EnhancedChunk
  isReady : Bool
  isEnhancedReady : Bool
  initError : Option Str
deriving DecidableEq, Repr

/-- `initialize` (`lib/ai.ts` / `ai.ts`): guarded by the ready/error
flags; loads `.txt` transcripts, fixed-width-chunks every file with at
least 100 trimmed characters, then bulk-embeds the first 50 chunks. -/
def initSystem (env : Env) (s : SysState) : SysState :=
  if s.isReady || s.initError.isSome then s
  else
    match env.files with
    | none =>
      { s with initError := some "Cannot access transcript directory".toList }
    | some allFiles =>
      let files := allFiles.filter fun f => ".txt".toList.isSuffixOf f.1
      if files.length = 0 then
        { s with initError := some "No .txt transcript files found".toList }
      else
        let newChunks := files.foldl
          (fun acc f =>
            if (trimStr f.2).length < 100 then acc
            else acc ++ fixedChunks f.2 (replaceFirst ".txt".toList [] f.1))
          []
        if newChunks.length = 0 then
          let msg := "No valid content chunks created from transcripts".toList
          { s with initError := some msg }
        else
          let all := s.chunks ++ newChunks
          let embedded := (bulkEmbed env.embed 0 0 (all.take 50)).1
          { s with chunks := embedded ++ all.drop 50, isReady := true }

/-- First-occurrence deduplication (`Set` insertion order). -/
def dedupFirst (l : List Str) : List Str :=
  l.foldl (fun acc t => if acc.any fun d => d == t then acc else acc ++ [t]) []

/-- `getAvailableTopics`: the distinct topics of the enhanced corpus, in
first-occurrence order, capped at 10. -/
def getAvailableTopics (chunks : List EnhancedChunk) : List Str :=
  (dedupFirst (chunks.map (fun c => c.topics)).flatten).take 10

/-- The diagnostic snapshot assembled by `getSystemStatus` (`lib/ai.ts`). -/
structure SystemStatus where
  ready : Bool
  enhancedReady : Bool
  error : Option Str
  totalChunks : Nat
  enhancedChunksCount : Nat
  embeddedChunks : Nat
  enhancedEmbeddedChunks : Nat
  hasGroqKey : Bool
  hasOpenAIKey : Bool
  availableTopics : List Str
deriving DecidableEq, Repr

/-- `getSystemStatus`: `await initialize()` first, then report the
snapshot of the resulting state.  Returns the new state paired with the
snapshot. -/
def getSystemStatus (env : Env) (s : SysState) : SysState × SystemStatus :=
  let s2 := initSystem env s
  (s2,
    { ready := s2.isReady
      enhancedReady := s2.isEnhancedReady
      error := s2.initError
      totalChunks := s2.chunks.length
      enhancedChunksCount := s2.enhancedChunks.length
      embeddedChunks := (s2.chunks.filter fun c => c.embedding.isSome).length
      enhancedEmbeddedChunks :=
        (s2.enhancedChunks.filter fun c => c.embedding.isSome).length
      hasGroqKey := env.hasGroqKey
      hasOpenAIKey := env.hasOpenAIKey
      availableTopics :=
        if s2.isEnhancedReady then getAvailableTopics s2.enhancedChunks
        else [] })

/-! ## Spec-side definitions

Independent renderings of spec sentences, to be compared with the
definitions translated from the source. -/

/-- The spec's semantic term: cosine similarity weighted 0.4, contributing
0 when either embedding is absent. -/
def specSemanticTerm (chunk : EnhancedChunk) (queryEmbedding : Option Vec) :
    JsNum :=
  match queryEmbedding, chunk.embedding with
  | some qe, some ce =>
    .num (cosineSimilarity (some qe) (some ce) * (4/10))
  | _, _ => .num 0

/-- The spec's topic-overlap ratio: matched topics over query topics, or
the 0.5 neutral value when the query has no topics. -/
def specTopicRatio (chunk : EnhancedChunk) (query : Str) : ℚ :=
  let queryTopics := extractTopics query
  if queryTopics.length > 0 then
    ((chunk.topics.filter fun t => queryTopics.contains t).length : ℚ) /
      queryTopics.length
  else 5/10

/-- The composite relevance score exactly as the spec words it: semantic
term + lexical(text) × 0.3 + topic ratio × 0.2 + lexical(context) × 0.1,
capped at 1. -/
def specCompositeRelevance (query : Str) (chunk : EnhancedChunk)
    (queryEmbedding : Option Vec) : Except Unit JsNum := do
  let lexText ← calculateKeywordRelevance query chunk.text
  let lexContext ← calculateKeywordRelevance query chunk.context
  pure (JsNum.min2
    (JsNum.add
      (JsNum.add
        (JsNum.add (specSemanticTerm chunk queryEmbedding)
          (JsNum.mul lexText (.num (3/10))))
        (.num (specTopicRatio chunk query * (2/10))))
      (JsNum.mul lexContext (.num (1/10))))
    (.num 1))

/-- The embedded-prefix shape of a successful bulk-embedding pass: chunk
`j` of the prefix carries the vector of provider call `start + j`. -/
def embedFrom (f : Nat → Option Vec) (start : Nat) :
    List Chunk → List Chunk
  | [] => []
  | c :: cs => { c with embedding := f start } :: embedFrom f (start + 1) cs

/-! ## Concrete instances used by witnesses and counterexamples -/

/-- A bare corpus chunk with the given text, context, corpus index and
topic labels (all other metadata neutral). -/
def plainEC (text ctx : Str) (idx : Nat) (topics : List Str) :
    EnhancedChunk :=
  { text := text
    episode := "ep".toList
    episodeTitle := "Ep".toList
    speaker := .unknown
    topics := topics
    index := idx
    context := ctx }

/-- Corpus position 0: six occurrences of `apple`, inert context. -/
def cexChunkA : EnhancedChunk :=
  plainEC "apple apple apple apple apple apple".toList "zzz".toList 0 []

/-- Corpus position 1: five occurrences of `apple`, three of `mango` in
the context — a strictly higher lexical-stage score than `cexChunkA`,
yet the same composite score 13/40. -/
def cexChunkB : EnhancedChunk :=
  plainEC "apple apple apple apple apple".toList
    "mango mango mango".toList 1 []

/-- The tie-producing query (no topics, two tokens of equal length). -/
def cexQuery : Str := "apple mango".toList

/-- A one-chunk corpus whose topic, phrase and keyword signals give a
composite score of 0.6 for the query `gaming apple`. -/
def c2Chunk : EnhancedChunk :=
  plainEC "gaming apple gaming apple gaming apple".toList
    "gaming apple gaming apple gaming apple".toList 0 ["gaming".toList]

/-- The query for the `c2Chunk` retrieval run. -/
def c2Query : Str := "gaming apple".toList

/-- The single retrieval result of running the pipeline on `[c2Chunk]`
with query `c2Query` and no query embedding. -/
def c2Res : RetrievalResult :=
  { chunk := c2Chunk
    relevanceScore := .num (3/5)
    confidenceLevel := .medium
    matchReason := "Topic match: gaming; Keywords: gaming, apple".toList }

/-- 780 filler characters, a sentence boundary, then a speaker-prefixed
21-character sentence: the smart chunker flushes the second sentence as
its own unit and strips the speaker name, leaving a 2-character text. -/
def c8Content : Str :=
  List.replicate 780 'x' ++ ".Abcdefghijklmnopq: hi".toList

/-- Eight identical corpus chunks for the bulk-embedding witness. -/
def c7Chunks : List Chunk :=
  (List.range 8).map fun j =>
    { text := "some transcript chunk text".toList
      episode := "e".toList
      index := j }

/-- An embedding oracle that succeeds on the first two calls and fails on
every later one. -/
def c7Oracle : Nat → Option Vec := fun i => if i < 2 then some [1] else none

/-- An environment with one readable 102-character transcript and a
provider that always fails. -/
def c9Env : Env :=
  { files := some [("ep.txt".toList, List.replicate 102 'x')]
    embed := fun _ => none
    hasGroqKey := true
    hasOpenAIKey := true }

/-- The fresh (never-initialized) module state. -/
def c9Fresh : SysState :=
  { chunks := []
    enhancedChunks := []
    isReady := false
    isEnhancedReady := false
    initError := none }

/-- An already-initialized state with one embedded chunk. -/
def c9Ready : SysState :=
  { chunks := [{ text := "hello there friend".toList
                 episode := "e".toList
                 index := 0
                 embedding := some [1, 2] }]
    enhancedChunks := []
    isReady := true
    isEnhancedReady := false
    initError := none }

/-- A chunk for exercising the keyword-fallback search. -/
def c10Chunk : Chunk :=
  { text := "hello world".toList, episode := "e".toList, index := 0 }

/-! ## Helper lemmas -/

theorem JsNum.add_zero_left (x : JsNum) : JsNum.add (.num 0) x = x := by
  cases x <;> simp [JsNum.add]

theorem JsNum.ltB_irrefl (a : JsNum) : JsNum.ltB a a = false := by
  cases a <;> simp [JsNum.ltB]

theorem mem_insertByB {le : α → α → Bool} {x : α} {l : List α} {a : α} :
    a ∈ insertByB le x l ↔ a = x ∨ a ∈ l := by
  induction l with
  | nil => simp [insertByB]
  | cons b t ih =>
    simp only [insertByB]
    split
    · simp [or_comm, or_assoc, or_left_comm]
    · simp [ih]
      tauto

theorem mem_sortByB {le : α → α → Bool} {l : List α} {a : α} :
    a ∈ sortByB le l ↔ a ∈ l := by
  induction l with
  | nil => simp [sortByB]
  | cons b t ih => simp [sortByB, mem_insertByB, ih]

theorem filter_insertByB_key (key : α → JsNum) (s : JsNum) (x : α)
    (l : List α) :
    (insertByB (leJsKey key) x l).filter (fun r => decide (key r = s)) =
      if key x = s then
        x :: l.filter (fun r => decide (key r = s))
      else l.filter (fun r => decide (key r = s)) := by
  induction l with
  | nil =>
    simp only [insertByB, List.filter]
    split <;> simp_all
  | cons b t ih =>
    simp only [insertByB]
    by_cases hle : leJsKey key x b = true
    · simp only [hle, if_true]
      by_cases hx : key x = s <;> simp [List.filter, hx]
    · have hlt : JsNum.ltB (key x) (key b) = true := by
        simp [leJsKey] at hle
        exact hle
      simp only [Bool.not_eq_true] at hle
      simp only [hle, if_false]
      by_cases hx : key x = s
      · have hb : key b ≠ s := by
          intro hbs
          rw [hx] at hlt
          rw [hbs] at hlt
          rw [JsNum.ltB_irrefl] at hlt
          exact Bool.false_ne_true hlt
        simp [List.filter, hb, hx, ih]
      · by_cases hb : key b = s <;> simp [List.filter, hb, hx, ih]

theorem filter_sortByB_key (key : α → JsNum) (s : JsNum) (l : List α) :
    (sortByB (leJsKey key) l).filter (fun r => decide (key r = s)) =
      l.filter (fun r => decide (key r = s)) := by
  induction l with
  | nil => rfl
  | cons b t ih =>
    simp only [sortByB, filter_insertByB_key]
    by_cases hb : key b = s <;> simp [List.filter, hb, ih]

/-! ## Claim C1 -/

/-- C1: for every fused candidate, the composite relevance score computed
by the retrieval orchestrator (`calculateEnhancedRelevance`) equals
semantic cosine similarity × 0.4 (contributing 0 when either embedding
is absent) + lexical relevance against the primary text × 0.3 + topic
overlap ratio (matched/query topics, 0.5 neutral without query topics)
× 0.2 + lexical relevance against the surrounding context × 0.1, capped
at 1 (`specCompositeRelevance`, written from the spec sentence). -/
theorem C1_composite_formula (query : Str) (chunk : EnhancedChunk)
    (qe : Option Vec) :
    calculateEnhancedRelevance query chunk qe =
      specCompositeRelevance query chunk qe := by
  unfold calculateEnhancedRelevance specCompositeRelevance
  cases hkw : calculateKeywordRelevance query chunk.text with
  | error e => simp [hkw, Except.bind, bind]
  | ok v =>
    cases hctx : calculateKeywordRelevance query chunk.context with
    | error e => simp [hkw, hctx, Except.bind, bind]
    | ok w =>
      simp only [hkw, hctx, Except.bind, bind, specSemanticTerm,
        specTopicRatio]
      cases qe <;> cases hemb : chunk.embedding <;>
        simp [JsNum.add_zero_left]

/-! ## Claim C4 -/

theorem filter_insertUnique (acc : List EnhancedChunk) (c : EnhancedChunk)
    (k : Str) :
    (insertUnique acc c).filter (fun d => decide (chunkKey d = k)) =
      acc.filter (fun d => decide (chunkKey d = k)) ++
        (if (acc.filter fun d => decide (chunkKey d = k)).isEmpty ∧
            chunkKey c = k then [c] else []) := by
  unfold insertUnique
  by_cases ha : (acc.any fun d => chunkKey d == chunkKey c) = true
  · simp only [ha, if_true]
    rcases List.any_eq_true.mp ha with ⟨d, hd, hdk⟩
    have hdk2 : chunkKey d = chunkKey c := beq_iff_eq.mp hdk
    by_cases hc : chunkKey c = k
    · have hdm : d ∈ acc.filter fun d => decide (chunkKey d = k) :=
        List.mem_filter.mpr ⟨hd, decide_eq_true (by rw [hdk2, hc])⟩
      have hne : (acc.filter fun d => decide (chunkKey d = k)) ≠ [] := by
        intro hemp
        rw [hemp] at hdm
        exact List.not_mem_nil d hdm
      simp [List.isEmpty_iff, hne]
    · simp [hc]
  · simp only [Bool.not_eq_true] at ha
    simp only [ha, Bool.false_eq_true, if_false, List.filter_append]
    by_cases hc : chunkKey c = k
    · have hemp : (acc.filter fun d => decide (chunkKey d = k)) = [] := by
        by_contra hne
        rcases List.exists_mem_of_ne_nil _ hne with ⟨d, hd⟩
        rw [List.mem_filter] at hd
        obtain ⟨hd1, hd2⟩ := hd
        have hdk : chunkKey d = k := of_decide_eq_true hd2
        have hcon : (acc.any fun d => chunkKey d == chunkKey c) = true :=
          List.any_eq_true.mpr
            ⟨d, hd1, beq_iff_eq.mpr (hdk.trans hc.symm)⟩
        rw [ha] at hcon
        exact Bool.false_ne_true hcon
      simp [hemp, hc, List.filter]
    · simp [hc, List.filter]

theorem foldl_insertUnique_filter (l : List EnhancedChunk) :
    ∀ (acc : List EnhancedChunk) (k : Str),
    (l.foldl insertUnique acc).filter (fun d => decide (chunkKey d = k)) =
      acc.filter (fun d => decide (chunkKey d = k)) ++
        (if (acc.filter fun d => decide (chunkKey d = k)).isEmpty then
          (l.filter fun d => decide (chunkKey d = k)).take 1
        else []) := by
  induction l with
  | nil =>
    intro acc k
    simp
  | cons c t ih =>
    intro acc k
    rw [List.foldl_cons, ih, filter_insertUnique]
    by_cases hc : chunkKey c = k
    · by_cases hemp : (acc.filter fun d => decide (chunkKey d = k)).isEmpty
      · simp [hemp, hc, List.filter]
      · simp [hemp, hc]
    · simp [hc, List.filter]

/-- C4: fusion deduplicates by unit id (`` `${episode}-${index}` ``): for
any semantic and lexical candidate lists, the fused list's entries with a
given id are exactly the first occurrence of that id in the concatenation
`semantic ++ lexical` — so a shared id appears exactly once and the
semantic-stage occurrence wins. -/
theorem C4_dedup_first_wins (sem lex : List EnhancedChunk) (k : Str) :
    (dedupFuse (sem ++ lex)).filter (fun c => decide (chunkKey c = k)) =
      ((sem ++ lex).filter fun c => decide (chunkKey c = k)).take 1 := by
  unfold dedupFuse
  rw [foldl_insertUnique_filter]
  simp

/-! ## Claim C10 -/

/-- C10: a query token longer than 2 characters containing a regex
metacharacter (`c++`, `(how`) makes the lexical scoring functions throw
(`new RegExp(word, 'g')` raises a `SyntaxError`) instead of returning a
score — for `searchByKeywordsEnhanced`, as soon as the corpus is
non-empty. -/
theorem C10_regex_throw :
    calculateKeywordRelevance "c++".toList "the c++ language".toList =
        .error () ∧
    calculateContentRelevance "(how".toList "how does it work".toList =
        .error () ∧
    searchByKeywordsEnhanced "c++".toList [c10Chunk] = .error () :=
  ⟨by decide, by decide, by decide⟩

/-! ## Claim C3 -/

/-- C3 counterexample: with the two-chunk corpus `[cexChunkA, cexChunkB]`
(insertion order 0, 1), query `apple mango` and a failed query embedding,
retrieval returns both candidates with the *same* composite score 13/40,
but in the order 1, 0 — the lexical stage ranked `cexChunkB` higher, and
the stable final sort preserves that fused order, not corpus insertion
order.  This refutes the claim that equal composite scores appear in
corpus insertion order. -/
theorem C3_counterexample :
    (performMultiStageRetrieval [cexChunkA, cexChunkB] cexQuery none).map
      (fun rs => rs.map fun r => (r.chunk.index, r.relevanceScore)) =
      .ok [(1, .num (13/40)), (0, .num (13/40))] := by decide

/-- C3 (amended): two retrieval calls on the same corpus state, query and
embedding oracle return the same ordered list (retrieval is a pure
function of its inputs, with no random choice), and the final sort is
stable: the candidates carrying any given composite score appear in the
result in exactly their fused-candidate order — which, as the
counterexample shows, need not be corpus insertion order. -/
theorem C3_determinism_and_stable_ties :
    (∀ (corpus : List EnhancedChunk) (query : Str) (qe : Option Vec),
        performMultiStageRetrieval corpus query qe =
          performMultiStageRetrieval corpus query qe) ∧
    (∀ (l : List RetrievalResult) (s : JsNum),
        (sortByB (leJsKey RetrievalResult.relevanceScore) l).filter
            (fun r => decide (r.relevanceScore = s)) =
          l.filter fun r => decide (r.relevanceScore = s)) :=
  ⟨fun _ _ _ => rfl,
   fun l s => filter_sortByB_key RetrievalResult.relevanceScore s l⟩

/-! ## Claim C2 -/

theorem mapM_ok_mem {α β : Type _} (f : α → Except Unit β) :
    ∀ (l : List α) (ys : List β), l.mapM f = .ok ys →
      ∀ y ∈ ys, ∃ x ∈ l, f x = .ok y := by
  intro l
  induction l with
  | nil =>
    intro ys h y hy
    rw [List.mapM_nil] at h
    cases h
    cases hy
  | cons a t ih =>
    intro ys h y hy
    rw [List.mapM_cons] at h
    cases hfa : f a with
    | error e =>
      rw [hfa] at h
      simp [Except.bind, bind] at h
    | ok b =>
      rw [hfa] at h
      cases hmt : t.mapM f with
      | error e =>
        rw [hmt] at h
        simp [Except.bind, bind] at h
      | ok bs =>
        rw [hmt] at h
        simp only [bind, Except.bind, pure, Except.pure] at h
        cases h
        rcases List.mem_cons.mp hy with hyb | hybs
        · exact ⟨a, List.mem_cons_self a t, by rw [hfa, hyb]⟩
        · rcases ih bs hmt y hybs with ⟨x, hx, hfx⟩
          exact ⟨x, List.mem_cons_of_mem a hx, hfx⟩

theorem determineConf_char (s : JsNum) (c : EnhancedChunk) (q : Str) :
    determineConfidenceLevel s c q =
      if JsNum.gtB s (.num (7/10)) = true ∧
          (extractTopics q).any (fun t => c.topics.contains t) = true then
        .high
      else if JsNum.gtB s (.num (5/10)) = true then .medium else .low := by
  unfold determineConfidenceLevel
  by_cases h7 : JsNum.gtB s (.num (7/10)) = true
  · by_cases hany : (extractTopics q).any (fun t => c.topics.contains t) = true
    · have hne : c.topics.length > 0 := by
        rcases List.any_eq_true.mp hany with ⟨t, _, hmem⟩
        have ht : t ∈ c.topics := List.mem_of_elem_eq_true hmem
        exact List.length_pos.mpr (List.ne_nil_of_mem ht)
      simp [h7, hne, hany]
    · have hany2 : ¬ ∃ x ∈ extractTopics q, x ∈ c.topics := by
        intro hex
        rcases hex with ⟨x, hx, hxc⟩
        exact hany
          (List.any_eq_true.mpr ⟨x, hx, List.elem_eq_true_of_mem hxc⟩)
      by_cases hlen : c.topics.length > 0 <;> simp [h7, hlen, hany, hany2]
  · simp [h7]

/-- C2: every retained candidate of the multi-stage pipeline has composite
score above 0.3 (candidates at or below the floor are discarded), and its
confidence is `high` exactly when the score exceeds 0.7 and the candidate
shares at least one topic with the query, `medium` when the score exceeds
0.5 but the `high` condition fails, and `low` otherwise. -/
theorem C2_floor_and_confidence (corpus : List EnhancedChunk) (query : Str)
    (qe : Option Vec) (rs : List RetrievalResult) (r : RetrievalResult)
    (hok : performMultiStageRetrieval corpus query qe = .ok rs)
    (hr : r ∈ rs) :
    JsNum.gtB r.relevanceScore (.num (3/10)) = true ∧
    r.confidenceLevel =
      (if JsNum.gtB r.relevanceScore (.num (7/10)) = true ∧
          (extractTopics query).any
            (fun t => r.chunk.topics.contains t) = true then
        Confidence.high
      else if JsNum.gtB r.relevanceScore (.num (5/10)) = true then
        Confidence.medium
      else Confidence.low) := by
  unfold performMultiStageRetrieval at hok
  simp only [bind, Except.bind] at hok
  split at hok
  · cases hok
  next kc hkc =>
    split at hok
    · cases hok
    next scored hsc =>
      simp only [pure, Except.pure] at hok
      cases hok
      have hr2 : r ∈ sortByB (leJsKey RetrievalResult.relevanceScore)
          (scored.filter fun x =>
            JsNum.gtB x.relevanceScore (.num (3/10))) :=
        List.mem_of_mem_take hr
      have hr3 := mem_sortByB.mp hr2
      rw [List.mem_filter] at hr3
      obtain ⟨hr4, hgt⟩ := hr3
      refine ⟨hgt, ?_⟩
      rcases mapM_ok_mem _ _ _ hsc r hr4 with ⟨c, _, hfc⟩
      cases hcal : calculateEnhancedRelevance query c qe with
      | error e =>
        rw [hcal] at hfc
        simp at hfc
      | ok v =>
        rw [hcal] at hfc
        simp only [pure, Except.pure] at hfc
        cases hfc
        exact determineConf_char v c query

/-- Witness for C2: running the pipeline on the one-chunk corpus
`[c2Chunk]` with query `gaming apple` and no query embedding yields
exactly `c2Res` (score 0.6, confidence `medium`), which satisfies the
floor and the confidence characterization. -/
theorem C2_witness :
    JsNum.gtB c2Res.relevanceScore (.num (3/10)) = true ∧
    c2Res.confidenceLevel =
      (if JsNum.gtB c2Res.relevanceScore (.num (7/10)) = true ∧
          (extractTopics c2Query).any
            (fun t => c2Res.chunk.topics.contains t) = true then
        Confidence.high
      else if JsNum.gtB c2Res.relevanceScore (.num (5/10)) = true then
        Confidence.medium
      else Confidence.low) :=
  C2_floor_and_confidence [c2Chunk] c2Query none [c2Res] c2Res
    (by decide) (by decide)

/-! ## Claim C5 -/

/-- C5 counterexample: for the query `ab` (whose only token has length 2,
so the token list is empty), `calculateKeywordRelevance` divides the
phrase bonus by zero: on text `ab` it returns 1 (`2/0 = Infinity`,
capped), on text `zzz` it returns `NaN` (`0/0`), and
`calculateContentRelevance` on text `ab` returns 1 — never the 0 the
claim asserts. -/
theorem C5_counterexample :
    calculateKeywordRelevance "ab".toList "ab".toList = .ok (.num 1) ∧
    calculateKeywordRelevance "ab".toList "zzz".toList = .ok .nan ∧
    calculateContentRelevance "ab".toList "ab".toList = .ok (.num 1) :=
  ⟨by decide, by decide, by decide⟩

/-- C5 (amended): for every query whose whitespace-separated, case-folded
tokens all have length at most 2, both scorers see zero query words; the
content-relevance variant returns 0 for any non-empty text that does not
contain the case-folded query as a substring, while the keyword variant
divides the phrase bonus by zero and returns 1 whenever the text does
contain the query — the scorers do not uniformly return 0. -/
theorem C5_amended (query text : Str)
    (htok : ∀ w ∈ splitRuns isWs (toLowerStr query), w.length ≤ 2)
    (htext : text ≠ []) :
    (isSubstr (toLowerStr query) (toLowerStr text) = false →
      calculateContentRelevance query text = .ok (.num 0)) ∧
    (isSubstr (toLowerStr query) (toLowerStr text) = true →
      calculateKeywordRelevance query text = .ok (.num 1)) := by
  have hq : queryTokens query = [] := by
    unfold queryTokens
    rw [List.filter_eq_nil_iff]
    intro w hw
    have := htok w hw
    simp
    omega
  have hlen : (0:ℚ) < (text.length : ℚ) := by
    have : 0 < text.length := List.length_pos.mpr htext
    exact_mod_cast this
  constructor
  · intro hsub
    unfold calculateContentRelevance
    rw [hq]
    simp only [List.all_nil, if_true, hsub, kwTermScore, List.map_nil,
      List.sum_nil, Bool.false_eq_true, if_false]
    have hden : ((text.length : ℚ) / 100) ≠ 0 := by positivity
    simp [JsNum.div, hden, JsNum.min2, JsNum.ltB]
  · intro hsub
    unfold calculateKeywordRelevance
    rw [hq]
    simp only [List.all_nil, if_true, hsub, kwTermScore, List.map_nil,
      List.sum_nil, if_true, List.length_nil]
    norm_num
    rw [show JsNum.div (JsNum.num 2) (JsNum.num 0) = JsNum.inf from
      by decide]
    rw [show JsNum.min2 JsNum.inf (JsNum.num 1) = JsNum.num 1 from
      by decide]

/-- Witness for C5: query `ab` against text `xy` (no substring) gives
content relevance 0, and against text `ab` (substring present) gives
keyword relevance 1. -/
theorem C5_witness :
    calculateContentRelevance "ab".toList "xy".toList = .ok (.num 0) ∧
    calculateKeywordRelevance "ab".toList "ab".toList = .ok (.num 1) :=
  ⟨(C5_amended "ab".toList "xy".toList (by decide) (by decide)).1
      (by decide),
   (C5_amended "ab".toList "ab".toList (by decide) (by decide)).2
      (by decide)⟩

/-! ## Claim C6 -/

theorem magSq_nonneg (a : Vec) : 0 ≤ magSq a := by
  induction a with
  | nil => simp [magSq]
  | cons x t ih =>
    simp only [magSq, List.map_cons, List.sum_cons]
    have := mul_self_nonneg x
    have h2 : (0:ℚ) ≤ (t.map fun x => x * x).sum := ih
    linarith

theorem magSq_pos (a : Vec) (h : ∃ x ∈ a, x ≠ 0) : 0 < magSq a := by
  induction a with
  | nil =>
    rcases h with ⟨x, hx, _⟩
    cases hx
  | cons y t ih =>
    simp only [magSq, List.map_cons, List.sum_cons]
    rcases h with ⟨x, hx, hxne⟩
    rcases List.mem_cons.mp hx with rfl | hxt
    · have h1 : 0 < x * x := mul_self_pos.mpr hxne
      have h2 : (0:ℚ) ≤ magSq t := magSq_nonneg t
      simp only [magSq] at h2
      linarith
    · have h2 : (0:ℚ) < magSq t := ih ⟨x, hxt, hxne⟩
      have := mul_self_nonneg y
      simp only [magSq] at h2
      linarith

theorem dotProd_self (a : Vec) : dotProd a a = magSq a := by
  induction a with
  | nil => simp [dotProd, magSq]
  | cons x t ih =>
    simp only [dotProd, magSq, List.zipWith_cons_cons, List.map_cons,
      List.sum_cons] at ih ⊢
    rw [ih]

theorem ratSqrt_mul_self (q : ℚ) (h : 0 ≤ q) : Rat.sqrt (q * q) = q := by
  rw [Rat.sqrt_eq, abs_of_nonneg h]

theorem ratSqrt_zero : Rat.sqrt 0 = 0 := by
  rw [show (0:ℚ) = 0 * 0 from by norm_num, Rat.sqrt_eq]
  simp

/-- C6: cosine similarity returns exactly 0 when either vector is absent,
when the dimensions mismatch, or when either vector has zero magnitude
(never dividing by zero); for every vector with a non-zero component,
`cosineSimilarity(a, a) = 1` exactly (the idealized statement of the
floating-point-tolerance claim); and the `similarity` variant of the
second module agrees with `cosineSimilarity` on all inputs. -/
theorem C6_cosine :
    (∀ b, cosineSimilarity none b = 0) ∧
    (∀ a, cosineSimilarity a none = 0) ∧
    (∀ a b : Vec, a.length ≠ b.length →
        cosineSimilarity (some a) (some b) = 0) ∧
    (∀ a b : Vec, magSq a = 0 ∨ magSq b = 0 →
        cosineSimilarity (some a) (some b) = 0) ∧
    (∀ a : Vec, (∃ x ∈ a, x ≠ 0) →
        cosineSimilarity (some a) (some a) = 1) ∧
    (∀ a b, similarity a b = cosineSimilarity a b) := by
  refine ⟨fun b => by cases b <;> rfl, fun a => by cases a <;> rfl,
    ?_, ?_, ?_, ?_⟩
  · intro a b h
    simp [cosineSimilarity, h]
  · intro a b h
    have hz : magSq a * magSq b = 0 := by
      rcases h with h | h <;> simp [h]
    simp only [cosineSimilarity, hz, ratSqrt_zero]
    split
    · rfl
    · norm_num
  · intro a hx
    have hne : a ≠ [] := by
      rcases hx with ⟨x, hx1, _⟩
      exact List.ne_nil_of_mem hx1
    have hlen : ¬(a.length ≠ a.length ∨ a.length = 0) := by
      simp [List.length_eq_zero]
      exact hne
    simp only [cosineSimilarity]
    rw [if_neg hlen]
    have hpos : 0 < magSq a := magSq_pos a hx
    rw [ratSqrt_mul_self (magSq a) (le_of_lt hpos)]
    rw [if_pos hpos, dotProd_self]
    exact div_self (ne_of_gt hpos)
  · intro a b
    cases a with
    | none => cases b <;> rfl
    | some av =>
      cases b with
      | none => rfl
      | some bv =>
        unfold similarity cosineSimilarity
        by_cases hl : av.length = bv.length
        · by_cases h0 : av.length = 0
          · have hav : av = [] := List.length_eq_zero.mp h0
            have hbv : bv = [] := List.length_eq_zero.mp (hl ▸ h0)
            subst hav
            subst hbv
            norm_num [magSq, dotProd, ratSqrt_zero]
          · have hbv : bv ≠ [] := by
              intro hb
              subst hb
              simp at hl
              exact h0 (by rw [hl]; rfl)
            simp [hl, h0, hbv]
        · simp [hl]

/-- Witness for C6: the diagonal case at the non-zero vector `[3/2]` and
the dimension-mismatch case at `[1]` versus `[1, 2]`. -/
theorem C6_witness :
    cosineSimilarity (some [(3:ℚ)/2]) (some [(3:ℚ)/2]) = 1 ∧
    cosineSimilarity (some [(1:ℚ)]) (some [(1:ℚ), 2]) = 0 :=
  ⟨C6_cosine.2.2.2.2.1 [(3:ℚ)/2] ⟨3/2, by norm_num, by norm_num⟩,
   C6_cosine.2.2.1 [(1:ℚ)] [(1:ℚ), 2] (by norm_num)⟩

/-! ## Claim C7 -/

theorem bulkEmbed_allFail (f : Nat → Option Vec) :
    ∀ (l : List Chunk) (i fails : Nat), fails < 5 →
      (∀ j, i ≤ j → f j = none) →
      bulkEmbed f i fails l = (l, i + min (5 - fails) l.length) := by
  intro l
  induction l with
  | nil =>
    intro i fails h5 hf
    simp [bulkEmbed]
  | cons c cs ih =>
    intro i fails h5 hf
    have hfi : f i = none := hf i (le_refl i)
    unfold bulkEmbed
    rw [hfi]
    by_cases hab : fails + 1 ≥ 5
    · have hf4 : fails = 4 := by omega
      subst hf4
      simp only [ge_iff_le, le_refl, if_pos]
      simp [List.length_cons]
    · rw [if_neg hab]
      rw [ih (i + 1) (fails + 1) (by omega) (fun j hj => hf j (by omega))]
      simp only [List.length_cons, Prod.mk.injEq, true_and]
      omega

theorem bulkEmbed_successRun (f : Nat → Option Vec) :
    ∀ (m : Nat) (l : List Chunk) (i : Nat),
    m ≤ l.length → (∀ j, j < m → (f (i + j)).isSome) →
    (∀ j, m ≤ j → f (i + j) = none) →
    bulkEmbed f i 0 l =
      (embedFrom f i (l.take m) ++ l.drop m,
        i + min (m + 5) l.length) := by
  intro m
  induction m with
  | zero =>
    intro l i _ _ hf
    have h := bulkEmbed_allFail f l i 0 (by omega) (fun j hj => by
      have := hf (j - i) (Nat.zero_le _)
      rwa [Nat.add_sub_cancel' hj] at this)
    rw [h]
    simp [embedFrom]
  | succ m ih =>
    intro l i hm hs hf
    cases l with
    | nil => simp at hm
    | cons c cs =>
      have hfi : (f i).isSome := by
        have := hs 0 (by omega)
        simpa using this
      rcases Option.isSome_iff_exists.mp hfi with ⟨v, hv⟩
      unfold bulkEmbed
      rw [hv]
      rw [ih cs (i + 1) (by simpa using hm)
        (fun j hj => by
          have := hs (j + 1) (by omega)
          rwa [show i + (j + 1) = i + 1 + j by omega] at this)
        (fun j hj => by
          have := hf (j + 1) (by omega)
          rwa [show i + (j + 1) = i + 1 + j by omega] at this)]
      simp only [List.take_succ_cons, List.drop_succ_cons, embedFrom,
        List.cons_append, List.length_cons, Prod.mk.injEq, hv]
      exact ⟨trivial, by omega⟩

/-- C7: in the bulk-embedding pass (an oracle `f` indexed by call number),
(1) a successful call stores the vector and resets the
consecutive-failure counter to 0, (2) the fifth consecutive failure
aborts the loop immediately, leaving the remaining chunks untouched, and
(3) when the first `m` calls succeed and all later ones fail, the loop
embeds exactly the first `m` chunks — which keep their embeddings —
leaves the rest unchanged, and makes only `min (m + 5) l.length`
provider calls (the early abort). -/
theorem C7_bulk_embedding :
    (∀ (f : Nat → Option Vec) (i fails : Nat) (c : Chunk)
        (cs : List Chunk) (v : Vec), f i = some v →
        bulkEmbed f i fails (c :: cs) =
          ({ c with embedding := some v } :: (bulkEmbed f (i + 1) 0 cs).1,
            (bulkEmbed f (i + 1) 0 cs).2)) ∧
    (∀ (f : Nat → Option Vec) (i : Nat) (c : Chunk) (cs : List Chunk),
        f i = none →
        bulkEmbed f i 4 (c :: cs) = (c :: cs, i + 1)) ∧
    (∀ (f : Nat → Option Vec) (l : List Chunk) (m : Nat),
        m ≤ l.length → (∀ j, j < m → (f j).isSome) →
        (∀ j, m ≤ j → f j = none) →
        bulkEmbed f 0 0 l =
          (embedFrom f 0 (l.take m) ++ l.drop m,
            min (m + 5) l.length)) := by
  refine ⟨?_, ?_, ?_⟩
  · intro f i fails c cs v h
    simp only [bulkEmbed, h]
  · intro f i c cs h
    simp only [bulkEmbed, h]
    norm_num
  · intro f l m hm hs hf
    have h := bulkEmbed_successRun f m l 0 hm
      (fun j hj => by simpa using hs j hj)
      (fun j hj => by simpa using hf j hj)
    simpa using h

/-- Witness for C7: the oracle succeeding on calls 0 and 1 and failing
afterwards embeds the first two of eight chunks and stops after
`min (2 + 5) 8 = 7` calls. -/
theorem C7_witness :
    bulkEmbed c7Oracle 0 0 c7Chunks =
      (embedFrom c7Oracle 0 (c7Chunks.take 2) ++ c7Chunks.drop 2,
        min (2 + 5) c7Chunks.length) :=
  C7_bulk_embedding.2.2 c7Oracle c7Chunks 2 (by decide)
    (fun j hj => by
      simp only [c7Oracle]
      rw [if_pos hj]
      rfl)
    (fun j hj => by
      simp only [c7Oracle]
      rw [if_neg (by omega)])

/-! ## Claim C8 -/

theorem fixedGo_minlen (ep : Str) :
    ∀ (fuel : Nat) (rem : Str) (idx : Nat) (c : Chunk),
      c ∈ fixedGo ep fuel rem idx → 50 < c.text.length := by
  intro fuel
  induction fuel with
  | zero =>
    intro rem idx c h
    simp [fixedGo] at h
  | succ n ih =>
    intro rem idx c h
    cases rem with
    | nil => simp [fixedGo] at h
    | cons x t =>
      simp only [fixedGo] at h
      split at h
      next hkeep =>
        rcases List.mem_cons.mp h with rfl | hmem
        · exact hkeep
        · exact ih _ _ _ hmem
      next => exact ih _ _ _ h

theorem fixedGo_indices (ep : Str) :
    ∀ (fuel : Nat) (rem : Str) (idx : Nat),
      (fixedGo ep fuel rem idx).map (fun c => c.index) =
        List.range' idx (fixedGo ep fuel rem idx).length := by
  intro fuel
  induction fuel with
  | zero =>
    intro rem idx
    simp [fixedGo]
  | succ n ih =>
    intro rem idx
    cases rem with
    | nil => simp [fixedGo]
    | cons x t =>
      simp only [fixedGo]
      split
      · simp only [List.map_cons, List.length_cons, ih]
        rw [List.range'_succ]
      · exact ih _ _

theorem chunksFromTexts_length (ep pc nc : Str) :
    ∀ (texts : List Str) (idx : Nat),
      (chunksFromTexts ep pc nc texts idx).length = texts.length := by
  intro texts
  induction texts with
  | nil => intro idx; rfl
  | cons t ts ih =>
    intro idx
    simp [chunksFromTexts, ih]

theorem chunksFromTexts_indices (ep pc nc : Str) :
    ∀ (texts : List Str) (idx : Nat),
      (chunksFromTexts ep pc nc texts idx).map (fun c => c.index) =
        List.range' idx texts.length := by
  intro texts
  induction texts with
  | nil => intro idx; rfl
  | cons t ts ih =>
    intro idx
    simp only [chunksFromTexts, List.map_cons, List.length_cons,
      createChunkWithMetadata, ih]
    rw [List.range'_succ]

theorem smartGo_indices (ep : Str) :
    ∀ (ss : List Str) (prev : Option Str) (idx : Nat),
      (smartGo ep prev ss idx).map (fun c => c.index) =
        List.range' idx (smartGo ep prev ss idx).length := by
  intro ss
  induction ss with
  | nil =>
    intro prev idx
    simp [smartGo]
  | cons s rest ih =>
    intro prev idx
    simp only [smartGo]
    split
    · rw [List.map_append, chunksFromTexts_indices, ih,
        List.length_append, chunksFromTexts_length]
      have h := List.range'_append idx
        ((splitRuns isPunct (trimStr s)).filter
          (fun x => (trimStr x).length > 20) |> sentenceBuffers []
          |>.length)
        (smartGo ep (some s) rest
          (idx + ((splitRuns isPunct (trimStr s)).filter
            (fun x => (trimStr x).length > 20) |> sentenceBuffers []
            |>.length))).length 1
      simp only [one_mul] at h
      rw [h, Nat.add_comm]
    · simp only [List.map_cons, List.length_cons,
        createChunkWithMetadata, ih]
      rw [List.range'_succ]

/-- C8 counterexample: on a section of 802 characters whose second
sentence is `Abcdefghijklmnopq: hi` (21 characters, so it passes the
20-character sentence filter), the smart chunker flushes that sentence as
its own unit and then strips the speaker prefix, emitting a unit whose
text is the 2-character string `hi` — far below both the 50- and the
20-character minimum thresholds.  This refutes the claim that the smart
chunker never emits a unit shorter than its configured minimum length. -/
theorem C8_counterexample :
    (createSmartChunks c8Content "ep".toList).map (fun c => c.text.length) =
      [780, 2] := by decide

/-- C8 (amended): the fixed-width fallback chunker never emits a unit of
50 characters or fewer, and in both modes the emitted units' sequence
indices are exactly `0, 1, 2, …` per document (hence strictly
increasing); the smart mode's 50/20-character thresholds apply to the
sections and sentences it filters, not to the emitted unit text, which
buffer flushing and speaker-prefix stripping can make arbitrarily
short. -/
theorem C8_amended :
    (∀ (content episode : Str) (c : Chunk),
        c ∈ fixedChunks content episode → 50 < c.text.length) ∧
    (∀ (content episode : Str),
        (fixedChunks content episode).map (fun c => c.index) =
          List.range' 0 (fixedChunks content episode).length) ∧
    (∀ (content episode : Str),
        (createSmartChunks content episode).map (fun c => c.index) =
          List.range' 0 (createSmartChunks content episode).length) :=
  ⟨fun content episode c h =>
      fixedGo_minlen episode content.length content 0 c h,
   fun content episode => fixedGo_indices episode content.length content 0,
   fun content episode =>
      smartGo_indices episode
        ((secSplit content).filter fun s => (trimStr s).length > 50)
        none 0⟩

/-- Witness for C8: the single chunk the fallback chunker produces from a
102-character document is longer than 50 characters. -/
theorem C8_witness :
    50 < ({ text := List.replicate 102 'x', episode := "e".toList,
            index := 0, embedding := none } : Chunk).text.length :=
  C8_amended.1 (List.replicate 102 'x') "e".toList _ (by decide)

/-! ## Claim C9 -/

/-- C9 counterexample: on a fresh (never-initialized) state with a
readable transcript directory, `getSystemStatus` first runs the full
initialization — loading the corpus and flipping the ready flag — so the
state after the call differs from the state before it.  This refutes the
claim that status introspection has no side effects. -/
theorem C9_counterexample : (getSystemStatus c9Env c9Fresh).1 ≠ c9Fresh := by
  decide

/-- C9 (amended): once the system is initialized (the ready flag is set or
a terminal initialization error is recorded), `getSystemStatus` leaves
the state — corpus, embeddings and flags — unchanged and returns the pure
diagnostic snapshot of that state; on a fresh state, however, it first
runs initialization, which mutates the corpus, the embedding cache and
the flags. -/
theorem C9_amended (env : Env) (s : SysState)
    (h : s.isReady = true ∨ s.initError.isSome = true) :
    (getSystemStatus env s).1 = s ∧
    (getSystemStatus env s).2 =
      { ready := s.isReady
        enhancedReady := s.isEnhancedReady
        error := s.initError
        totalChunks := s.chunks.length
        enhancedChunksCount := s.enhancedChunks.length
        embeddedChunks := (s.chunks.filter fun c => c.embedding.isSome).length
        enhancedEmbeddedChunks :=
          (s.enhancedChunks.filter fun c => c.embedding.isSome).length
        hasGroqKey := env.hasGroqKey
        hasOpenAIKey := env.hasOpenAIKey
        availableTopics :=
          if s.isEnhancedReady then getAvailableTopics s.enhancedChunks
          else [] } := by
  have hinit : initSystem env s = s := by
    unfold initSystem
    rcases h with h | h <;> simp [h]
  unfold getSystemStatus
  rw [hinit]
  exact ⟨rfl, rfl⟩

/-- Witness for C9: on the already-ready state `c9Ready`, the call leaves
the state unchanged and reports its snapshot. -/
theorem C9_witness :
    (getSystemStatus c9Env c9Ready).1 = c9Ready ∧
    (getSystemStatus c9Env c9Ready).2 =
      { ready := c9Ready.isReady
        enhancedReady := c9Ready.isEnhancedReady
        error := c9Ready.initError
        totalChunks := c9Ready.chunks.length
        enhancedChunksCount := c9Ready.enhancedChunks.length
        embeddedChunks :=
          (c9Ready.chunks.filter fun c => c.embedding.isSome).length
        enhancedEmbeddedChunks :=
          (c9Ready.enhancedChunks.filter fun c => c.embedding.isSome).length
        hasGroqKey := c9Env.hasGroqKey
        hasOpenAIKey := c9Env.hasOpenAIKey
        availableTopics :=
          if c9Ready.isEnhancedReady then
            getAvailableTopics c9Ready.enhancedChunks
          else [] } :=
  C9_amended c9Env c9Ready (Or.inl rfl)

end WTF
